import Mathlib

/-!
# Verification of the Oraq admission-control protocol

Shallow embedding of `src/index.js` (class `Oraq`) and `src/Coordinator.js`
(class `Coordinator`) of the `oraq` package: a Redis-backed distributed
queue with bounded concurrency.

The backing store is modelled by `Store`: the two queue lists
(`P:pending`, `P:processing`) and the set of currently existing lock keys.
Store commands issued by the source are modelled by `StoreOp` together
with the interpreter `applyOp`; fallible store round-trips are modelled
with `Except`, with a `Client` record of failure-injection flags standing
for the store connection.

JavaScript specifics that matter here are kept faithfully:
  * `this._startTime` is initially `null` (falsy, like `0`), so the
    "record start time" check `if (!this._startTime)` is modelled on an
    `Int` field with `0` meaning unset;
  * the `switch (this._mode)` in `_setCanRun` is modelled on an
    `Option String` — `Oraq.limit` constructs the `Coordinator` without a
    `mode` option, which is modelled as `none`;
  * `setex` TTL arguments are the exact rationals the source computes
    (`timeout * 1.5 / 1000`, `ms * 2 / 1000`), with no rounding;
  * truthiness and `typeof` / `Number.isInteger` checks of `_validate`
    are modelled on a `JSVal` type of JavaScript runtime values.
-/

set_option autoImplicit false

namespace Oraq

/-- Which of the two queue lists a store key denotes. -/
inductive QueueSel where
  | pendingQ
  | processingQ
deriving DecidableEq, Repr

/-- The queue-relevant part of the Redis keyspace: the two job-id lists and
the set of currently existing lock keys (a key is set iff it is a member;
TTL values are treated separately, see `ttlPendingLock`). -/
structure Store where
  pending : List String
  processing : List String
  locks : List String
deriving DecidableEq, Repr

/-- Configuration captured by a `Coordinator` instance: the fields set in
the constructor of `src/Coordinator.js` from its validated options.
`mode` is `none` when the options object carries no `mode` property
(as is the case for the Coordinator built by `Oraq.limit`). -/
structure Cfg where
  jobId : String
  keyPending : String
  keyProcessing : String
  lock : String
  concurrency : Int
  timeout : Int
  mode : Option String
deriving DecidableEq, Repr

/-- `` `${keyPending}:${jobId}${lock}` `` — the pending-side lock key. -/
def pendingLockKey (cfg : Cfg) : String :=
  cfg.keyPending ++ ":" ++ cfg.jobId ++ cfg.lock

/-- `` `${keyProcessing}:${jobId}${lock}` `` — the processing-side lock key. -/
def processingLockKey (cfg : Cfg) : String :=
  cfg.keyProcessing ++ ":" ++ cfg.jobId ++ cfg.lock

/-- The store key of a queue list. -/
def queueKeyOf (cfg : Cfg) : QueueSel → String
  | .pendingQ => cfg.keyPending
  | .processingQ => cfg.keyProcessing

/-- Read a queue list from the store. -/
def getQueue (st : Store) : QueueSel → List String
  | .pendingQ => st.pending
  | .processingQ => st.processing

/-- Replace a queue list in the store. -/
def setQueue (st : Store) : QueueSel → List String → Store
  | .pendingQ, l => { st with pending := l }
  | .processingQ, l => { st with processing := l }

/-- `setex(timeout * 1.5 / 1000)` in `Oraq.limit`: the exact TTL argument
passed for the pending lock, as a rational number of seconds. -/
def ttlPendingLock (timeout : Int) : ℚ :=
  (timeout : ℚ) * (3 / 2) / 1000

/-- `setex(ms * 2 / 1000)` in `Coordinator.keepAlive`: the exact TTL
argument passed for the processing lock, as a rational number of seconds. -/
def ttlProcessingLock (ms : Int) : ℚ :=
  (ms : ℚ) * 2 / 1000

/-- Store commands issued by the source (arguments as issued). -/
inductive StoreOp where
  | setex (key : String) (ttl : ℚ)
  | del (key : String)
  | lpush (key : String) (v : String)
  | rpush (key : String) (v : String)
  | lrem (key : String) (count : Int) (v : String)
  | brpoplpush (src : String) (dst : String)
deriving DecidableEq, Repr

/-- Redis `LREM` with positive count: remove up to `n` occurrences of `v`
scanning head to tail. -/
def lremFirstN (v : String) : List String → Nat → List String
  | [], _ => []
  | x :: xs, 0 => x :: xs
  | x :: xs, n + 1 => if x = v then lremFirstN v xs n else x :: lremFirstN v xs (n + 1)

/-- Redis `LREM` semantics: count `0` removes all occurrences, positive
counts remove from the head, negative counts from the tail. -/
def lremList (count : Int) (v : String) (l : List String) : List String :=
  if count = 0 then l.filter (· ≠ v)
  else if 0 < count then lremFirstN v l count.toNat
  else (lremFirstN v l.reverse (-count).toNat).reverse

/-- Look a list key up in the store (keys other than the two queue keys
hold no list). -/
def getListK (cfg : Cfg) (k : String) (st : Store) : List String :=
  if k = cfg.keyPending then st.pending
  else if k = cfg.keyProcessing then st.processing
  else []

/-- Write a list key in the store. -/
def setListK (cfg : Cfg) (k : String) (l : List String) (st : Store) : Store :=
  if k = cfg.keyPending then { st with pending := l }
  else if k = cfg.keyProcessing then { st with processing := l }
  else st

/-- Interpreter for one store command. `brpoplpush` pops the tail of the
source list and pushes it onto the head of the destination (inside a
`MULTI` it does not block: an empty source yields a nil result and no
change). -/
def applyOp (cfg : Cfg) (st : Store) : StoreOp → Store
  | .setex k _ => if k ∈ st.locks then st else { st with locks := k :: st.locks }
  | .del k => { st with locks := st.locks.filter (· ≠ k) }
  | .lpush k v => setListK cfg k (v :: getListK cfg k st) st
  | .rpush k v => setListK cfg k (getListK cfg k st ++ [v]) st
  | .lrem k count v => setListK cfg k (lremList count v (getListK cfg k st)) st
  | .brpoplpush src dst =>
    match (getListK cfg src st).getLast? with
    | none => st
    | some v =>
      let st1 := setListK cfg src (getListK cfg src st).dropLast st
      setListK cfg dst (v :: getListK cfg dst st1) st1

/-- Run the commands of one atomic `multi` in order. -/
def applyOps (cfg : Cfg) (ops : List StoreOp) (st : Store) : Store :=
  ops.foldl (applyOp cfg) st

/-- Failure-injection flags for the fallible store round-trips the claims
are about; `okClient` injects none. -/
structure Client where
  failSetex : Bool
  failLrange : Bool
  failExists : Bool
  failSweepExec : Bool
deriving DecidableEq, Repr

/-- The client on which every store round-trip succeeds. -/
def okClient : Client := ⟨false, false, false, false⟩

/-- One `setex` round-trip: the store write, or a store error. -/
def setexCall (cfg : Cfg) (c : Client) (key : String) (ttl : ℚ) (st : Store) :
    Except String Store :=
  if c.failSetex then .error "store error" else .ok (applyOp cfg st (.setex key ttl))

/-- `Coordinator.keepAlive`, one tick: `setex` the processing lock with
TTL `ms * 2 / 1000`, swallowing any store error (`.catch(() => null)`),
then re-arm the timer. The returned flag records that the timer was
re-armed. -/
def keepAliveOnce (cfg : Cfg) (c : Client) (ms : Int) (st : Store) :
    Except String (Store × Bool) :=
  match setexCall cfg c (processingLockKey cfg) (ttlProcessingLock ms) st with
  | .error _ => .ok (st, true)
  | .ok st' => .ok (st', true)

/-- `` `${queueKey}:${jobId}${this._lock}` `` — the lock key the stuck-job
sweep checks for a job id found in a queue. -/
def lockKeyIn (cfg : Cfg) (queueKey j : String) : String :=
  queueKey ++ ":" ++ j ++ cfg.lock

/-- The `exists` round-trip of the stuck-job sweep. -/
def existsCall (c : Client) (key : String) (st : Store) : Except String Bool :=
  if c.failExists then .error "store error" else .ok (key ∈ st.locks)

/-- The per-id loop of `Coordinator._removeStuckJobs`: for every truthy id
in the queue snapshot, check whether its lock key exists; collect the ids
whose lock is absent. Each `exists` round-trip can fail, and such a
failure propagates (the loop body is `await`ed with no `catch`). -/
def checkStuck (cfg : Cfg) (c : Client) (queueKey : String) (st : Store) :
    List String → Except String (List String)
  | [] => .ok []
  | j :: rest =>
    if j = "" then checkStuck cfg c queueKey st rest
    else
      match existsCall c (lockKeyIn cfg queueKey j) st with
      | .error e => .error e
      | .ok ex =>
        match checkStuck cfg c queueKey st rest with
        | .error e => .error e
        | .ok others => .ok (if ex then others else j :: others)

/-- `Coordinator._removeStuckJobs(queueKey)`: `lrange` the whole queue
(failure propagates), return early when empty; mark ids whose lock key is
absent (each `exists` failure propagates); when any are stuck, remove all
their occurrences in one `multi` of `lrem(queueKey, 0, id)` commands whose
`exec` failure is swallowed (`.catch(() => null)`). -/
def removeStuckJobsE (cfg : Cfg) (c : Client) (sel : QueueSel) (st : Store) :
    Except String Store :=
  if c.failLrange then .error "store error"
  else
    let jobIds := getQueue st sel
    if jobIds.isEmpty then .ok st
    else
      match checkStuck cfg c (queueKeyOf cfg sel) st jobIds with
      | .error e => .error e
      | .ok stuck =>
        if stuck.isEmpty then .ok st
        else if c.failSweepExec then .ok st
        else .ok (setQueue st sel (jobIds.filter (fun j => ¬ j ∈ stuck)))

/-- Mutable per-coordinator state: `_startTime` (`0` models the initial
`null`, both falsy) and whether the `canRun` latch has been resolved. -/
structure CoordState where
  startTime : Int
  resolved : Bool
deriving DecidableEq, Repr

/-- `Coordinator._setCanRun`, one assessment at wall-clock `now`:
record `startTime` on first entry; if `now - startTime > timeout`,
resolve the latch and return at once; otherwise sweep stuck jobs in the
pending then the processing queue, atomically read
`(llen(processing), lindex(pending, -1))`, and resolve the latch when the
processing count is below `concurrency` and the mode switch selects a
released branch (`'limiter'`: always; `'queue'`: only when the pending
tail is this job's id; any other mode value, including an absent one,
matches no case of the switch). -/
def setCanRunE (cfg : Cfg) (c : Client) (now : Int) (st : Store) (cs : CoordState) :
    Except String (Store × CoordState) :=
  let start := if cs.startTime = 0 then now else cs.startTime
  if cfg.timeout < now - start then
    .ok (st, ⟨start, true⟩)
  else
    match removeStuckJobsE cfg c .pendingQ st with
    | .error e => .error e
    | .ok st1 =>
      match removeStuckJobsE cfg c .processingQ st1 with
      | .error e => .error e
      | .ok st2 =>
        let processingCount := st2.processing.length
        let nextJobId := st2.pending.getLast?
        let canRelease :=
          decide ((processingCount : Int) < cfg.concurrency) &&
            (match cfg.mode with
              | some m =>
                if m = "limiter" then true
                else if m = "queue" then decide (nextJobId = some cfg.jobId)
                else false
              | none => false)
        .ok (st2, ⟨start, cs.resolved || canRelease⟩)

/-- The enqueue `multi` of `Oraq.limit`: `setex` the pending lock with TTL
`timeout * 1.5 / 1000`, then insert the job id into the pending list —
`lpush` (head) by default, `rpush` (tail) when `lifo`. -/
def enqueueOps (cfg : Cfg) (timeout : Int) (lifo : Bool) : List StoreOp :=
  [.setex (pendingLockKey cfg) (ttlPendingLock timeout),
   if lifo then .rpush cfg.keyPending cfg.jobId else .lpush cfg.keyPending cfg.jobId]

/-- The store effect of the admitted half of `Oraq.limit`: the first
`keepAlive` `setex` of the processing lock, the transition `multi`
(`brpoplpush(pending, processing)` then `del` of the pending lock), the
user job (no store effect), and the `finally` `multi`
(`lrem(processing, 1, jobId)` then `del` of the processing lock). -/
def admissionAndCleanup (cfg : Cfg) (ping : Int) (st : Store) : Store :=
  let st1 := applyOp cfg st (.setex (processingLockKey cfg) (ttlProcessingLock ping))
  let st2 := applyOps cfg
    [.brpoplpush cfg.keyPending cfg.keyProcessing, .del (pendingLockKey cfg)] st1
  applyOps cfg
    [.lrem cfg.keyProcessing 1 cfg.jobId, .del (processingLockKey cfg)] st2

/-- The store effect of an `Oraq.limit` call whose waiting phase throws a
store error after the enqueue `multi` (for instance the sweep's `lrange`
failing inside `coordinator.wait`): the enqueue `multi` runs, then only
the `finally` `multi` (`lrem(processing, 1, jobId)`, `del` of the
processing lock) runs. -/
def limitEarlyError (cfg : Cfg) (timeout : Int) (lifo : Bool) (st : Store) : Store :=
  applyOps cfg [.lrem cfg.keyProcessing 1 cfg.jobId, .del (processingLockKey cfg)]
    (applyOps cfg (enqueueOps cfg timeout lifo) st)

/-- The `multi` of `Oraq.removeJobById(jobId)`: `del` the pending lock,
then `lrem(pending, 1, jobId)`. -/
def removeJobById (cfg : Cfg) (st : Store) : Store :=
  applyOps cfg [.del (pendingLockKey cfg), .lrem cfg.keyPending 1 cfg.jobId] st

/-- The configuration `Oraq.limit` hands to the `Coordinator` constructor
under the default `prefix` (`"oraq"`, the package name) and `id`
(`"queue"`): derived key names, `lock = ":lock"`, and — faithfully to
`src/index.js`, which passes no `mode` option — `mode = none`. -/
def limitCfg (jobId : String) (concurrency timeout : Int) : Cfg :=
  { jobId := jobId
    keyPending := "oraq:queue:pending"
    keyProcessing := "oraq:queue:processing"
    lock := ":lock"
    concurrency := concurrency
    timeout := timeout
    mode := none }

/-- Whether the stuck-job sweep of queue `queueKey` evicts id `j` from the
snapshot taken over `st`: `j` is truthy and its lock key is absent. -/
def isStuck (cfg : Cfg) (queueKey : String) (st : Store) (j : String) : Bool :=
  !(j == "") && !(decide (lockKeyIn cfg queueKey j ∈ st.locks))

/-- The net effect of a successful `_removeStuckJobs(queueKey)` on the
store: drop every stuck id from the queue. -/
def sweepQueue (cfg : Cfg) (sel : QueueSel) (st : Store) : Store :=
  setQueue st sel ((getQueue st sel).filter (fun j => !(isStuck cfg (queueKeyOf cfg sel) st j)))

/-- What the `pmessage` listener built by `Oraq._getOnKeyEvent` does for
one delivered keyspace event: `evict sel id` stands for
`lrem(queueKey, 1, id)` followed by `coordinator.wait(ping)` (a
reassessment), `reassess` for `coordinator.wait(ping)` alone. -/
inductive KeyAction where
  | evict (sel : QueueSel) (id : String)
  | reassess
deriving DecidableEq, Repr

/-- JavaScript `channel.endsWith(suffix)`, on the character sequences. -/
def jsEndsWith (s suffix : String) : Bool :=
  suffix.data.isSuffixOf s.data

/-- JavaScript `channel.startsWith(prefixStr)`, on the character
sequences. -/
def jsStartsWith (s prefixStr : String) : Bool :=
  prefixStr.data.isPrefixOf s.data

/-- JavaScript `s.slice(start, -k)`: the characters from index `start` up
to `s.length - k`. -/
def jsSliceNeg (s : String) (start k : Nat) : String :=
  ⟨(s.data.take (s.data.length - k)).drop start⟩

/-- `Oraq._getOnKeyEvent`'s listener body, from `src/index.js`: on an
`expired` event whose channel ends in the lock suffix, for each of the
two queue keys whose keyspace prefix matches the channel, slice out the
expired job id and evict it then reassess; otherwise, on an `rpop` or
`lrem` event (with no check of which key the channel names), reassess;
every other event is ignored. -/
def onKeyEvent (cfg : Cfg) (channel message : String) : List KeyAction :=
  if message = "expired" && jsEndsWith channel cfg.lock then
    [QueueSel.pendingQ, QueueSel.processingQ].filterMap (fun sel =>
      let queueStart := "__keyspace@0__:" ++ queueKeyOf cfg sel ++ ":"
      if jsStartsWith channel queueStart then
        some (KeyAction.evict sel
          (jsSliceNeg channel queueStart.data.length cfg.lock.data.length))
      else none)
  else if message = "rpop" || message = "lrem" then [KeyAction.reassess]
  else []

/-- A JavaScript runtime value, as far as `Coordinator._validate`'s
`typeof`, `Number.isInteger` and truthiness checks can distinguish them
(numbers carry their numeric value as a rational). -/
inductive JSVal where
  | undef
  | vnull
  | vbool (b : Bool)
  | vnum (q : ℚ)
  | vstr (s : String)
  | vobj
deriving DecidableEq, Repr

/-- `typeof v === 'string'`. -/
def JSVal.isString : JSVal → Bool
  | .vstr _ => true
  | _ => false

/-- `Number.isInteger(v)`. -/
def JSVal.isIntegerNum : JSVal → Bool
  | .vnum q => q.den = 1
  | _ => false

/-- JavaScript truthiness. -/
def JSVal.truthy : JSVal → Bool
  | .undef => false
  | .vnull => false
  | .vbool b => b
  | .vnum q => q ≠ 0
  | .vstr s => s ≠ ""
  | .vobj => true

/-- The options object handed to the `Coordinator` constructor, with the
fields `_validate` inspects. -/
structure CoordOptions where
  jobId : JSVal
  keyPending : JSVal
  keyProcessing : JSVal
  lock : JSVal
  concurrency : JSVal
  timeout : JSVal
  client : JSVal
deriving DecidableEq, Repr

/-- `Coordinator._validate(options)`: the exact check sequence of
`src/Coordinator.js`, throwing (modelled as `Except.error` with the
thrown message) at the first violated precondition. `none` models a
falsy `options` argument. -/
def validate (o : Option CoordOptions) : Except String Unit :=
  match o with
  | none => .error "options are required"
  | some o =>
    if ¬ o.jobId.isString then .error "jobId must be a string"
    else if ¬ o.keyPending.isString then .error "keyPending must be a string"
    else if ¬ o.keyProcessing.isString then .error "keyProcessing must be a string"
    else if ¬ o.lock.isString then .error "lock must be a string"
    else if ¬ o.concurrency.isIntegerNum then .error "concurrency must be an integer"
    else if ¬ o.timeout.isIntegerNum then .error "timeout must be an integer"
    else if ¬ o.client.truthy then .error "client is required"
    else .ok ()

/-- Whether an `Except` result is a success. -/
def isOkB {ε α : Type} : Except ε α → Bool
  | .ok _ => true
  | .error _ => false

theorem setQueue_getQueue (st : Store) (sel : QueueSel) :
    setQueue st sel (getQueue st sel) = st := by
  cases st; cases sel <;> rfl

theorem getQueue_setQueue (st : Store) (sel : QueueSel) (l : List String) :
    getQueue (setQueue st sel l) sel = l := by
  cases st; cases sel <;> rfl

theorem locks_setQueue (st : Store) (sel : QueueSel) (l : List String) :
    (setQueue st sel l).locks = st.locks := by
  cases st; cases sel <;> rfl

theorem checkStuck_ok (cfg : Cfg) (c : Client) (queueKey : String) (st : Store)
    (l : List String) (hE : c.failExists = false) :
    checkStuck cfg c queueKey st l = .ok (l.filter (isStuck cfg queueKey st)) := by
  induction l with
  | nil => rfl
  | cons j rest ih =>
    by_cases hj : j = ""
    · subst hj
      simp [checkStuck, ih, isStuck]
    · by_cases hl : lockKeyIn cfg queueKey j ∈ st.locks
      · simp [checkStuck, hj, existsCall, hE, ih, isStuck, hl]
      · simp [checkStuck, hj, existsCall, hE, ih, isStuck, hl]

theorem checkStuck_okClient (cfg : Cfg) (queueKey : String) (st : Store)
    (l : List String) :
    checkStuck cfg okClient queueKey st l = .ok (l.filter (isStuck cfg queueKey st)) :=
  checkStuck_ok cfg okClient queueKey st l rfl

theorem removeStuck_okClient (cfg : Cfg) (sel : QueueSel) (st : Store) :
    removeStuckJobsE cfg okClient sel st = .ok (sweepQueue cfg sel st) := by
  have h1 : okClient.failLrange = false := rfl
  have h2 : okClient.failSweepExec = false := rfl
  simp only [removeStuckJobsE, h1, h2, checkStuck_okClient, Bool.false_eq_true, if_false,
    List.isEmpty_iff]
  by_cases hnil : getQueue st sel = []
  · rw [if_pos hnil, sweepQueue, hnil, List.filter_nil, ← hnil, setQueue_getQueue]
  · rw [if_neg hnil]
    by_cases hstuck : (getQueue st sel).filter (isStuck cfg (queueKeyOf cfg sel) st) = []
    · rw [hstuck]
      have hall : (getQueue st sel).filter
          (fun j => !(isStuck cfg (queueKeyOf cfg sel) st j)) = getQueue st sel := by
        rw [List.filter_eq_self]
        intro a ha
        have := (List.filter_eq_nil_iff.mp hstuck) a ha
        simp only [Bool.not_eq_true', Bool.not_eq_true] at this ⊢
        exact this
      simp [sweepQueue, hall, setQueue_getQueue]
    · simp only [hstuck, if_false, if_neg hstuck, sweepQueue]
      congr 2
      apply List.filter_congr
      intro x hx
      simp [List.mem_filter, hx]

/-- Stuck-job sweeps touch only their queue list, never the lock keys. -/
theorem sweepQueue_locks (cfg : Cfg) (sel : QueueSel) (st : Store) :
    (sweepQueue cfg sel st).locks = st.locks := by
  simp [sweepQueue, locks_setQueue]

theorem sweepQueue_pending_of_processing (cfg : Cfg) (st : Store) :
    (sweepQueue cfg .processingQ st).pending = st.pending := by
  cases st; rfl

theorem sweepQueue_pendingQ_pending (cfg : Cfg) (st : Store) :
    (sweepQueue cfg .pendingQ st).pending =
      st.pending.filter (fun j => !(isStuck cfg cfg.keyPending st j)) := by
  cases st; rfl

/-- C1: refuted — the code contradicts the specified admission rule.
`Oraq.limit` constructs its `Coordinator` without a `mode` option, so the
`switch (this._mode)` in `_setCanRun` matches neither `'limiter'` nor
`'queue'` and `_resolve()` is unreachable on the snapshot branch. At a
state where the atomically-read pair satisfies both conditions of the
claim — `llen(P:processing) = 0 < concurrency = 1` and
`lindex(P:pending, -1) = jobId` — with the global timeout not yet
elapsed, the assessment completes without releasing the `canRun` latch. -/
theorem limit_mode_missing_blocks_release :
    setCanRunE (limitCfg "j" 1 7200000) okClient 1000
        ⟨["j"], [], ["oraq:queue:pending:j:lock"]⟩ ⟨0, false⟩ =
      .ok (⟨["j"], [], ["oraq:queue:pending:j:lock"]⟩, ⟨1000, false⟩) ∧
    (((⟨["j"], [], ["oraq:queue:pending:j:lock"]⟩ : Store).processing.length : Int) <
      (limitCfg "j" 1 7200000).concurrency) ∧
    (⟨["j"], [], ["oraq:queue:pending:j:lock"]⟩ : Store).pending.getLast? =
      some (limitCfg "j" 1 7200000).jobId ∧
    (limitCfg "j" 1 7200000).mode = none :=
  ⟨rfl, by decide, rfl, rfl⟩

/-- C2: the anti-starvation escape. Whenever an assessment starts with a
recorded `startTime` and `now − startTime > timeout`, `_setCanRun`
resolves the `canRun` latch unconditionally and returns at once: the
store is untouched and no sweep, `llen` or `lindex` round-trip is issued
(witnessed by the result being independent of the client's failure
flags, which any store round-trip would consult). -/
theorem timeout_escape_releases (cfg : Cfg) (c : Client) (now : Int) (st : Store)
    (cs : CoordState) (h0 : cs.startTime ≠ 0) (h : cfg.timeout < now - cs.startTime) :
    setCanRunE cfg c now st cs = .ok (st, ⟨cs.startTime, true⟩) := by
  simp only [setCanRunE]
  rw [if_neg h0, if_pos h]

/-- Witness for C2 at a concrete input: an all-failing client, a busy
store, `timeout = 2000`, `startTime = 1`, `now = 3002`. -/
theorem timeout_escape_releases_witness :
    ((⟨1, false⟩ : CoordState).startTime ≠ 0 ∧
      (limitCfg "j" 1 2000).timeout < 3002 - (⟨1, false⟩ : CoordState).startTime) ∧
    setCanRunE (limitCfg "j" 1 2000) ⟨true, true, true, true⟩ 3002
        ⟨["a", "j"], ["b"], []⟩ ⟨1, false⟩ =
      .ok (⟨["a", "j"], ["b"], []⟩, ⟨1, true⟩) :=
  ⟨⟨by decide, by decide⟩,
    timeout_escape_releases _ _ _ _ _ (by decide) (by decide)⟩

/-- C10: the stuck-job sweep does not exempt the assessing coordinator's
own job. If `jobId` sits in `P:pending` while its pending lock key is
absent, an assessment that has not hit the timeout escape removes `jobId`
from the pending list (the sweep is keyed only on lock existence), and —
then as well as on every later assessment from a state no longer holding
`jobId` in `P:pending` — the latch is not newly released: for any mode the
façade can reach (anything but `'limiter'`), release requires the pending
tail to equal `jobId`, which a list not containing `jobId` cannot satisfy.
So only the timeout escape can still release `canRun`. -/
theorem sweep_evicts_own_job (cfg : Cfg) (now : Int) (st : Store) (cs : CoordState)
    (st' : Store) (cs' : CoordState)
    (hmode : cfg.mode ≠ some "limiter")
    (hcase : (cfg.jobId ∈ st.pending ∧ cfg.jobId ≠ "" ∧ pendingLockKey cfg ∉ st.locks) ∨
      cfg.jobId ∉ st.pending)
    (htime : ¬ cfg.timeout < now - (if cs.startTime = 0 then now else cs.startTime))
    (hrun : setCanRunE cfg okClient now st cs = .ok (st', cs')) :
    cfg.jobId ∉ st'.pending ∧ cs'.resolved = cs.resolved := by
  simp only [setCanRunE, if_neg htime, removeStuck_okClient, Except.ok.injEq,
    Prod.mk.injEq] at hrun
  obtain ⟨hst, hcs⟩ := hrun
  subst hst
  subst hcs
  have hnotmem : cfg.jobId ∉
      (sweepQueue cfg .processingQ (sweepQueue cfg .pendingQ st)).pending := by
    rw [sweepQueue_pending_of_processing, sweepQueue_pendingQ_pending]
    intro hmem
    obtain ⟨hmemorig, hpred⟩ := List.mem_filter.mp hmem
    rcases hcase with ⟨hin, hne, hlock⟩ | hnotin
    · have hstuck : isStuck cfg cfg.keyPending st cfg.jobId = true := by
        have h1 : (cfg.jobId == "") = false := by
          simp [hne]
        have h2 : decide (lockKeyIn cfg cfg.keyPending cfg.jobId ∈ st.locks) = false := by
          simpa [lockKeyIn, pendingLockKey] using hlock
        simp [isStuck, h1, h2]
      rw [hstuck] at hpred
      simp at hpred
    · exact hnotin hmemorig
  refine ⟨hnotmem, ?_⟩
  have hrelease :
      (match cfg.mode with
        | some m =>
          if m = "limiter" then true
          else if m = "queue" then
            decide ((sweepQueue cfg QueueSel.processingQ
              (sweepQueue cfg QueueSel.pendingQ st)).pending.getLast? = some cfg.jobId)
          else false
        | none => false) = false := by
    cases hm : cfg.mode with
    | none => rfl
    | some m =>
      by_cases hlim : m = "limiter"
      · exact absurd (by rw [hm, hlim]) hmode
      · simp only [if_neg hlim]
        by_cases hq : m = "queue"
        · rw [if_pos hq]
          have hne : (sweepQueue cfg QueueSel.processingQ
              (sweepQueue cfg QueueSel.pendingQ st)).pending.getLast? ≠ some cfg.jobId := by
            intro hlast
            exact hnotmem (List.mem_of_getLast?_eq_some hlast)
          simp [hne]
        · rw [if_neg hq]
  simp only [hrelease, Bool.and_false, Bool.or_false]

/-- Witness for C10 at a concrete input: jobId `"j"` waits in `P:pending`
with its pending lock expired; its own assessment sweeps it away and does
not release the latch. -/
theorem sweep_evicts_own_job_witness :
    (limitCfg "j" 1 7200000).jobId ∉ (⟨[], [], []⟩ : Store).pending ∧
    (⟨5, false⟩ : CoordState).resolved = (⟨5, false⟩ : CoordState).resolved :=
  sweep_evicts_own_job (limitCfg "j" 1 7200000) 5 ⟨["j"], [], []⟩ ⟨5, false⟩
    ⟨[], [], []⟩ ⟨5, false⟩ (by decide) (Or.inl ⟨by decide, by decide, by decide⟩)
    (by decide) rfl

theorem lremFirstN_zero (v : String) (l : List String) : lremFirstN v l 0 = l := by
  cases l <;> rfl

/-- `lrem(key, 1, v)` on a list whose head is `v` pops exactly that head. -/
theorem lremList_one_cons_self (v : String) (l : List String) :
    lremList 1 v (v :: l) = l := by
  simp [lremList, lremFirstN, lremFirstN_zero]

theorem count_one_getLast_not_mem_dropLast (l : List String) (a : String)
    (hl : l.getLast? = some a) (hc : l.count a = 1) : a ∉ l.dropLast := by
  have hsplit : l.dropLast ++ [a] = l := List.dropLast_append_getLast? a hl
  intro hmem
  have h1 : 0 < l.dropLast.count a := List.count_pos_iff.mpr hmem
  have h2 : l.count a = l.dropLast.count a + 1 := by
    conv_lhs => rw [← hsplit]
    simp [List.count_append]
  omega

/-- C3 (amended): on exit paths that reach the pending → processing
transition — job success and user-job failure alike — `limit` leaves the
store clean: if at transition time the job's id is the tail of
`P:pending`, occurs there exactly once, and is not already in
`P:processing`, then after the transition `multi`, the job, and the
`finally` `multi`, the id is absent from both lists and neither lock key
exists. (The early-error exit is different; see the counterexample.) -/
theorem limit_transition_cleanup (cfg : Cfg) (ping : Int) (st : Store)
    (hk : cfg.keyPending ≠ cfg.keyProcessing)
    (htail : st.pending.getLast? = some cfg.jobId)
    (hcount : st.pending.count cfg.jobId = 1)
    (hproc : cfg.jobId ∉ st.processing) :
    cfg.jobId ∉ (admissionAndCleanup cfg ping st).pending ∧
    cfg.jobId ∉ (admissionAndCleanup cfg ping st).processing ∧
    pendingLockKey cfg ∉ (admissionAndCleanup cfg ping st).locks ∧
    processingLockKey cfg ∉ (admissionAndCleanup cfg ping st).locks := by
  have hk' : ¬ cfg.keyProcessing = cfg.keyPending := fun h => hk h.symm
  by_cases hmem : processingLockKey cfg ∈ st.locks
  all_goals {
    have hstate : admissionAndCleanup cfg ping st =
        { pending := st.pending.dropLast
          processing := st.processing
          locks := ((if processingLockKey cfg ∈ st.locks then st.locks
              else processingLockKey cfg :: st.locks).filter
                (· ≠ pendingLockKey cfg)).filter (· ≠ processingLockKey cfg) } := by
      simp [admissionAndCleanup, applyOps, applyOp, getListK, setListK,
        htail, hk, hk', lremList_one_cons_self, hmem]
    rw [hstate]
    refine ⟨count_one_getLast_not_mem_dropLast st.pending cfg.jobId htail hcount, hproc,
      ?_, ?_⟩
    · intro hmem2
      have hmem1 := List.mem_of_mem_filter hmem2
      have := List.of_mem_filter hmem1
      simp at this
    · intro hmem2
      have := List.of_mem_filter hmem2
      simp at this
  }

/-- Witness for C3 (amended) at a concrete input: one waiting job `"j"`
holding its pending lock, empty processing queue. -/
theorem limit_transition_cleanup_witness :
    "j" ∉ (admissionAndCleanup (limitCfg "j" 1 7200000) 60000
      ⟨["j"], [], ["oraq:queue:pending:j:lock"]⟩).pending ∧
    "j" ∉ (admissionAndCleanup (limitCfg "j" 1 7200000) 60000
      ⟨["j"], [], ["oraq:queue:pending:j:lock"]⟩).processing ∧
    pendingLockKey (limitCfg "j" 1 7200000) ∉ (admissionAndCleanup (limitCfg "j" 1 7200000)
      60000 ⟨["j"], [], ["oraq:queue:pending:j:lock"]⟩).locks ∧
    processingLockKey (limitCfg "j" 1 7200000) ∉ (admissionAndCleanup (limitCfg "j" 1 7200000)
      60000 ⟨["j"], [], ["oraq:queue:pending:j:lock"]⟩).locks :=
  limit_transition_cleanup (limitCfg "j" 1 7200000) 60000
    ⟨["j"], [], ["oraq:queue:pending:j:lock"]⟩ (by decide) rfl (by decide) (by decide)

/-- C3, counterexample to the claim as stated: on the exit path where a
store error is thrown between the enqueue `multi` and the transition
(e.g. the sweep's `lrange` failing inside `coordinator.wait`, whose error
propagates out of `limit`), the `finally` block only removes the id from
`P:processing` and deletes the processing lock. Starting from an empty
store, the completed call leaves the id in `P:pending` and leaves the
pending lock key in the store — contradicting "absent from both lists and
neither lock exists on every exit path". -/
theorem limit_early_error_leaves_pending :
    (limitCfg "j" 1 7200000).jobId ∈
      (limitEarlyError (limitCfg "j" 1 7200000) 7200000 false ⟨[], [], []⟩).pending ∧
    pendingLockKey (limitCfg "j" 1 7200000) ∈
      (limitEarlyError (limitCfg "j" 1 7200000) 7200000 false ⟨[], [], []⟩).locks := by
  decide

/-- C4 (amended): the per-job keyspace listener reacts to exactly these
events. `rpop` and `lrem` events trigger a reassessment — regardless of
which subscribed channel they arrive on; `expired` events on a channel
ending in the lock suffix trigger, for each queue whose keyspace prefix
matches the channel, an `lrem` of the sliced-out job id followed by a
reassessment; every other event — including the list mutations `lpush`,
`rpush` and `brpoplpush` on the queue list keys — is ignored. -/
theorem onKeyEvent_characterization (cfg : Cfg) (channel message : String) :
    ((message = "rpop" ∨ message = "lrem") →
      onKeyEvent cfg channel message = [KeyAction.reassess]) ∧
    (message ≠ "expired" → message ≠ "rpop" → message ≠ "lrem" →
      onKeyEvent cfg channel message = []) ∧
    (message = "expired" → jsEndsWith channel cfg.lock = false →
      onKeyEvent cfg channel message = []) ∧
    onKeyEvent (limitCfg "j" 1 7200000)
        "__keyspace@0__:oraq:queue:pending:x:lock" "expired" =
      [KeyAction.evict QueueSel.pendingQ "x"] ∧
    onKeyEvent (limitCfg "j" 1 7200000)
        "__keyspace@0__:oraq:queue:processing:x:lock" "expired" =
      [KeyAction.evict QueueSel.processingQ "x"] := by
  refine ⟨?_, ?_, ?_, by decide, by decide⟩
  · rintro (h | h) <;> subst h <;> simp [onKeyEvent]
  · intro h1 h2 h3
    simp [onKeyEvent, h1, h2, h3]
  · intro h1 h2
    subst h1
    simp [onKeyEvent, h2]

/-- Witness for C4 (amended) at a concrete input: an `rpop` event on the
pending list channel triggers a reassessment. -/
theorem onKeyEvent_characterization_witness :
    onKeyEvent (limitCfg "j" 1 7200000) "__keyspace@0__:oraq:queue:pending" "rpop" =
      [KeyAction.reassess] :=
  (onKeyEvent_characterization (limitCfg "j" 1 7200000)
    "__keyspace@0__:oraq:queue:pending" "rpop").1 (Or.inl rfl)

/-- C4, counterexample to the claim as stated: `lpush`, `rpush` and
`brpoplpush` events on the pending queue list key produce no action at
all — the listener's second branch tests only
`['rpop', 'lrem'].includes(message)` — whereas the claim requires each of
them to trigger a reassessment. -/
theorem list_push_events_ignored :
    onKeyEvent (limitCfg "j" 1 7200000) "__keyspace@0__:oraq:queue:pending" "lpush" = [] ∧
    onKeyEvent (limitCfg "j" 1 7200000) "__keyspace@0__:oraq:queue:pending" "rpush" = [] ∧
    onKeyEvent (limitCfg "j" 1 7200000) "__keyspace@0__:oraq:queue:pending" "brpoplpush" =
      [] := by
  decide

/-- C5 (amended): the `setex` TTL arguments are the exact, unrounded
quotients `timeout · 1.5 / 1000` and `ping · 2 / 1000`; no `ceil` is
applied. They agree with the spec's `ceil(timeout · 1.5 / 1000)` and
`ceil(ping · 2 / 1000)` exactly when the quotient is an integer, i.e.
when `2000 ∣ 3 · timeout` resp. `500 ∣ ping`. -/
theorem ttl_exact_values (t p : Int) :
    ttlPendingLock t = (3 * t : ℚ) / 2000 ∧
    ttlProcessingLock p = (p : ℚ) / 500 ∧
    ((2000 : Int) ∣ 3 * t → ttlPendingLock t = ((⌈ttlPendingLock t⌉ : Int) : ℚ)) ∧
    ((500 : Int) ∣ p → ttlProcessingLock p = ((⌈ttlProcessingLock p⌉ : Int) : ℚ)) := by
  have h1 : ttlPendingLock t = (3 * t : ℚ) / 2000 := by
    rw [ttlPendingLock]
    ring
  have h2 : ttlProcessingLock p = (p : ℚ) / 500 := by
    rw [ttlProcessingLock]
    ring
  refine ⟨h1, h2, ?_, ?_⟩
  · rintro ⟨k, hk⟩
    have hq : ttlPendingLock t = ((k : Int) : ℚ) := by
      rw [h1]
      have h3 : ((3 * t : Int) : ℚ) = 2000 * (k : ℚ) := by
        rw [hk]; push_cast; ring
      push_cast at h3
      rw [h3]
      ring
    rw [hq, Int.ceil_intCast]
  · rintro ⟨k, hk⟩
    have hq : ttlProcessingLock p = ((k : Int) : ℚ) := by
      rw [h2]
      have : ((p : Int) : ℚ) = 500 * (k : ℚ) := by
        rw [hk]; push_cast; ring
      rw [this]
      ring
    rw [hq, Int.ceil_intCast]

/-- Witness for C5 (amended) at concrete divisible inputs
`timeout = 2000`, `ping = 500`. -/
theorem ttl_exact_values_witness :
    ((2000 : Int) ∣ 3 * 2000 ∧ (500 : Int) ∣ 500) ∧
    ttlPendingLock 2000 = ((⌈ttlPendingLock 2000⌉ : Int) : ℚ) ∧
    ttlProcessingLock 500 = ((⌈ttlProcessingLock 500⌉ : Int) : ℚ) :=
  ⟨⟨⟨3, by norm_num⟩, ⟨1, by norm_num⟩⟩,
    (ttl_exact_values 2000 500).2.2.1 ⟨3, by norm_num⟩,
    (ttl_exact_values 2000 500).2.2.2 ⟨1, by norm_num⟩⟩

/-- C5, counterexample to the claim as stated: at `timeout = 1000` the
pending-lock `setex` receives `1000 · 1.5 / 1000 = 3/2`, while the
claimed TTL is `⌈3/2⌉ = 2`; at `ping = 750` the keep-alive `setex`
receives `750 · 2 / 1000 = 3/2`, not `⌈3/2⌉ = 2`. The first conjunct pins
the argument actually passed by the enqueue `multi`. -/
theorem ttl_not_ceiled :
    (enqueueOps (limitCfg "j" 1 1000) 1000 false).head? =
      some (StoreOp.setex (pendingLockKey (limitCfg "j" 1 1000)) (ttlPendingLock 1000)) ∧
    (⌈ttlPendingLock 1000⌉ : Int) = 2 ∧
    ttlPendingLock 1000 ≠ ((2 : Int) : ℚ) ∧
    (⌈ttlProcessingLock 750⌉ : Int) = 2 ∧
    ttlProcessingLock 750 ≠ ((2 : Int) : ℚ) := by
  have hp : ttlPendingLock 1000 = 3 / 2 := by norm_num [ttlPendingLock]
  have hr : ttlProcessingLock 750 = 3 / 2 := by norm_num [ttlProcessingLock]
  refine ⟨rfl, ?_, ?_, ?_, ?_⟩
  · rw [hp, Int.ceil_eq_iff]; norm_num
  · rw [hp]; norm_num
  · rw [hr, Int.ceil_eq_iff]; norm_num
  · rw [hr]; norm_num

/-- C6 (amended): `Coordinator._validate` succeeds exactly when `jobId`,
`keyPending`, `keyProcessing` and `lock` are strings, `concurrency` and
`timeout` satisfy `Number.isInteger` (zero and negative integers are
accepted — positivity is not checked), and `client` is truthy; a falsy
`options` argument is rejected. Errors are thrown synchronously with the
source's messages, at the first violated check in source order. -/
theorem validate_characterization (o : CoordOptions) :
    isOkB (validate (some o)) =
      (o.jobId.isString && o.keyPending.isString && o.keyProcessing.isString &&
        o.lock.isString && o.concurrency.isIntegerNum && o.timeout.isIntegerNum &&
        o.client.truthy) ∧
    validate none = .error "options are required" := by
  refine ⟨?_, rfl⟩
  simp only [validate]
  split_ifs <;> simp_all [isOkB]

/-- C6, counterexample to the claim as stated: an options object whose
`concurrency` is `0` (and another whose `concurrency` is `-5`) — not a
positive integer — passes validation, because the source only checks
`Number.isInteger(options.concurrency)`; the claim requires construction
to throw. -/
theorem validate_accepts_nonpositive_concurrency :
    validate (some ⟨JSVal.vstr "1", JSVal.vstr "pending", JSVal.vstr "processing",
      JSVal.vstr ":lock", JSVal.vnum 0, JSVal.vnum 10000, JSVal.vobj⟩) = .ok () ∧
    validate (some ⟨JSVal.vstr "1", JSVal.vstr "pending", JSVal.vstr "processing",
      JSVal.vstr ":lock", JSVal.vnum (-5), JSVal.vnum 10000, JSVal.vobj⟩) = .ok () :=
  ⟨rfl, rfl⟩

/-- C7: the enqueue of `Oraq.limit` is one atomic `multi` of exactly two
commands, in which the `setex` of the pending lock key (with the computed
TTL) comes first and the insertion of the job id into `P:pending` second;
the insertion is `lpush` (head) when `lifo` is false and `rpush` (tail)
when `lifo` is true, as the resulting store confirms: the job id lands at
the head resp. tail of the pending list, the pending lock key exists, and
the processing list is untouched. -/
theorem enqueue_order_and_effect (cfg : Cfg) (t : Int) (lifo : Bool) (st : Store) :
    enqueueOps cfg t lifo =
      [StoreOp.setex (pendingLockKey cfg) (ttlPendingLock t),
        if lifo then StoreOp.rpush cfg.keyPending cfg.jobId
        else StoreOp.lpush cfg.keyPending cfg.jobId] ∧
    (applyOps cfg (enqueueOps cfg t lifo) st).pending =
      (if lifo then st.pending ++ [cfg.jobId] else cfg.jobId :: st.pending) ∧
    pendingLockKey cfg ∈ (applyOps cfg (enqueueOps cfg t lifo) st).locks ∧
    (applyOps cfg (enqueueOps cfg t lifo) st).processing = st.processing := by
  refine ⟨rfl, ?_, ?_, ?_⟩ <;>
    cases lifo <;>
      by_cases hmem : pendingLockKey cfg ∈ st.locks <;>
        simp [enqueueOps, applyOps, applyOp, getListK, setListK, hmem]

/-- C8 helper: `lrem(key, 1, v)` leaves a list without `v` unchanged. -/
theorem lremFirstN_one_not_mem (a : String) (l : List String) (h : a ∉ l) :
    lremFirstN a l 1 = l := by
  induction l with
  | nil => rfl
  | cons x xs ih =>
    have hx : ¬ x = a := fun he => h (he ▸ List.mem_cons_self x xs)
    have hxs : a ∉ xs := fun hm => h (List.mem_cons_of_mem x hm)
    simp [lremFirstN, hx, ih hxs]

/-- C8 helper: removing one occurrence twice equals removing it once when
the value occurs at most once. -/
theorem lremFirstN_one_idem (a : String) (l : List String) (h : l.count a ≤ 1) :
    lremFirstN a (lremFirstN a l 1) 1 = lremFirstN a l 1 := by
  induction l with
  | nil => rfl
  | cons x xs ih =>
    by_cases hx : x = a
    · subst hx
      have hcount : xs.count x = 0 := by
        have := List.count_cons_self x xs
        omega
      have hnot : x ∉ xs := List.count_eq_zero.mp hcount
      simp [lremFirstN, lremFirstN_zero, lremFirstN_one_not_mem x xs hnot]
    · have hxs : xs.count a ≤ 1 := by
        have hcc : (x :: xs).count a = xs.count a :=
          List.count_cons_of_ne (fun he => hx he.symm) xs
        omega
      simp [lremFirstN, hx, ih hxs]

theorem removeJobById_eq (cfg : Cfg) (st : Store) :
    removeJobById cfg st =
      { pending := lremFirstN cfg.jobId st.pending 1
        processing := st.processing
        locks := st.locks.filter (· ≠ pendingLockKey cfg) } := by
  simp [removeJobById, applyOps, applyOp, getListK, setListK, lremList]

/-- C8 (amended): `removeJobById(id)` is one atomic `multi` deleting the
pending lock key and issuing `lrem(P:pending, 1, id)`; running it twice is
a no-op after the first **provided** the id occurs at most once in
`P:pending` — the invariant every normally enqueued job satisfies. (With
duplicate occurrences, `lrem` with count `1` removes one occurrence per
call; see the counterexample.) -/
theorem removeJobById_idempotent (cfg : Cfg) (st : Store)
    (hcount : st.pending.count cfg.jobId ≤ 1) :
    removeJobById cfg (removeJobById cfg st) = removeJobById cfg st := by
  rw [removeJobById_eq cfg st, removeJobById_eq cfg _]
  have hfilter : (st.locks.filter (· ≠ pendingLockKey cfg)).filter
      (· ≠ pendingLockKey cfg) = st.locks.filter (· ≠ pendingLockKey cfg) := by
    rw [List.filter_eq_self]
    intro a ha
    exact (List.mem_filter.mp ha).2
  simp [lremFirstN_one_idem cfg.jobId st.pending hcount, hfilter]

/-- Witness for C8 (amended) at a concrete input: a store whose pending
list holds `"j"` once. -/
theorem removeJobById_idempotent_witness :
    removeJobById (limitCfg "j" 1 7200000)
        (removeJobById (limitCfg "j" 1 7200000) ⟨["j", "a"], [], ["k"]⟩) =
      removeJobById (limitCfg "j" 1 7200000) ⟨["j", "a"], [], ["k"]⟩ :=
  removeJobById_idempotent (limitCfg "j" 1 7200000) ⟨["j", "a"], [], ["k"]⟩ (by decide)

/-- C8, counterexample to the claim as stated ("for every store state"):
when `P:pending` holds the id twice, the first call removes only the first
occurrence (`lrem` count is `1`), so the second call removes the second —
it is not a no-op. -/
theorem removeJobById_twice_not_noop :
    removeJobById (limitCfg "j" 1 7200000)
        (removeJobById (limitCfg "j" 1 7200000) ⟨["j", "j"], [], []⟩) ≠
      removeJobById (limitCfg "j" 1 7200000) ⟨["j", "j"], [], []⟩ := by
  decide

/-- C9 (amended): `keepAlive` swallows `setex` store errors — the refresh
never throws and the timer is re-armed either way; the stuck-job sweep
swallows only the final removal `multi`'s `exec` error: it succeeds
whenever `lrange` and the `exists` checks succeed (even if the removal
`exec` fails), but an `lrange` failure propagates to the caller (and so
does an `exists` failure), contrary to the claim's "any store operation". -/
theorem keepalive_sweep_error_policy (cfg : Cfg) (c : Client) (ping : Int)
    (st : Store) (sel : QueueSel) :
    (∃ st', keepAliveOnce cfg c ping st = .ok (st', true)) ∧
    (c.failLrange = false → c.failExists = false →
      isOkB (removeStuckJobsE cfg c sel st) = true) ∧
    (c.failLrange = true → removeStuckJobsE cfg c sel st = .error "store error") := by
  refine ⟨?_, ?_, ?_⟩
  · by_cases hc : c.failSetex = true <;>
      simp [keepAliveOnce, setexCall, hc]
  · intro h1 h2
    simp only [removeStuckJobsE, h1, Bool.false_eq_true, if_false]
    rw [checkStuck_ok cfg c (queueKeyOf cfg sel) st (getQueue st sel) h2]
    by_cases hnil : (getQueue st sel).isEmpty <;> simp only [hnil, if_true, if_false]
    · rfl
    · split_ifs <;> rfl
  · intro h1
    simp [removeStuckJobsE, h1]

/-- Witness for C9 (amended) at concrete inputs: a failing `setex` still
re-arms keep-alive; the sweep succeeds under a client that fails only the
removal `exec`; the sweep propagates an `lrange` failure. -/
theorem keepalive_sweep_error_policy_witness :
    (∃ st', keepAliveOnce (limitCfg "j" 1 7200000) ⟨true, false, false, true⟩ 60000
        ⟨["j"], [], []⟩ = .ok (st', true)) ∧
    isOkB (removeStuckJobsE (limitCfg "j" 1 7200000) ⟨true, false, false, true⟩ .pendingQ
      ⟨["j"], [], []⟩) = true :=
  ⟨(keepalive_sweep_error_policy (limitCfg "j" 1 7200000) ⟨true, false, false, true⟩
      60000 ⟨["j"], [], []⟩ .pendingQ).1,
    (keepalive_sweep_error_policy (limitCfg "j" 1 7200000) ⟨true, false, false, true⟩
      60000 ⟨["j"], [], []⟩ .pendingQ).2.1 rfl rfl⟩

/-- C9, counterexample to the claim as stated: a store failure of the
sweep's `lrange` is not tolerated silently — `_removeStuckJobs` awaits
`lrange` with no `catch`, so the error propagates out (through
`_setCanRun` and `wait`, ultimately failing the `limit` call). -/
theorem sweep_lrange_error_propagates :
    removeStuckJobsE (limitCfg "j" 1 7200000) ⟨false, true, false, false⟩ .pendingQ
      ⟨["j"], [], []⟩ = .error "store error" := rfl

end Oraq
